import Mathlib

set_option maxRecDepth 40000

/-!
Shallow embedding of phc-sf-parse.c (PHC string format example codec for
Argon2i, by Thomas Pornin).  Characters and bytes are modelled as natural
numbers (a C string is the list of its character codes before the
terminating zero), `unsigned` arithmetic is taken modulo 2^32 and
`unsigned long` is modelled as a 64-bit type: values are capped at
ULONG_MAX = 2^64 - 1.  Buffers together with their length fields are
modelled as lists (the list is the meaningful prefix of the buffer).
Fallible functions return Option.
-/

/-- Modulus of the C type unsigned int (32 bits). -/
def UINT_MOD : Nat := 2 ^ 32

/-- Largest value of the C type unsigned long (LP64: 64 bits). -/
def ULONG_MAX : Nat := 2 ^ 64 - 1

/-- Modulus of the C type unsigned long. -/
def ULONG_MOD : Nat := 2 ^ 64

/-- Constant-time macro EQ(x, y) from the source: 0xFF when x = y, 0x00
otherwise, computed with unsigned 32-bit arithmetic. -/
def ctEQ (x y : Nat) : Nat :=
  ((((UINT_MOD - (x ^^^ y)) % UINT_MOD) >>> 8) &&& 0xFF) ^^^ 0xFF

/-- Constant-time macro GT(x, y): 0xFF when x > y (for values in 0..255). -/
def ctGT (x y : Nat) : Nat :=
  (((y + UINT_MOD - x) % UINT_MOD) >>> 8) &&& 0xFF

/-- Constant-time macro GE(x, y). -/
def ctGE (x y : Nat) : Nat := ctGT y x ^^^ 0xFF

/-- Constant-time macro LT(x, y). -/
def ctLT (x y : Nat) : Nat := ctGT y x

/-- Constant-time macro LE(x, y). -/
def ctLE (x y : Nat) : Nat := ctGE y x

/-- b64_byte_to_char from the source: value 0..63 to Base64 character,
via branchless masked selection.  Negative int constants that C converts
to unsigned are written as UINT_MOD - k. -/
def b64_byte_to_char (x : Nat) : Nat :=
  (ctLT x 26 &&& (x + 65)) |||
  (ctGE x 26 &&& ctLT x 52 &&& (x + 71)) |||
  (ctGE x 52 &&& ctLT x 62 &&& ((x + (UINT_MOD - 4)) % UINT_MOD)) |||
  (ctEQ x 62 &&& 43) ||| (ctEQ x 63 &&& 47)

/-- b64_char_to_byte from the source: Base64 character to its 6-bit
value, 0xFF (255) for characters outside the alphabet. -/
def b64_char_to_byte (c : Nat) : Nat :=
  let x := (ctGE c 65 &&& ctLE c 90 &&& ((c + (UINT_MOD - 65)) % UINT_MOD)) |||
           (ctGE c 97 &&& ctLE c 122 &&& ((c + (UINT_MOD - 71)) % UINT_MOD)) |||
           (ctGE c 48 &&& ctLE c 57 &&& (c + 4)) |||
           (ctEQ c 43 &&& 62) ||| (ctEQ c 47 &&& 63)
  x ||| (ctEQ x 0 &&& (ctEQ c 65 ^^^ 0xFF))

/-- Inner while loop of to_base64: emit Base64 characters from the
accumulator while at least 6 bits are buffered.  The shift count after
removing 6 bits is the new bit count, as in the source. -/
def to_b64_emit (acc : Nat) : Nat → List Nat
  | al + 6 => b64_byte_to_char ((acc >>> al) &&& 0x3F) :: to_b64_emit acc al
  | _ => []

/-- Main loop of to_base64: for each source byte, shift it into the
32-bit accumulator and emit full 6-bit groups; at the end of the input
flush the remaining bits padded with zeros. -/
def to_b64_loop : List Nat → Nat → Nat → List Nat
  | [], acc, al =>
    if 0 < al then [b64_byte_to_char ((acc <<< (6 - al)) &&& 0x3F)] else []
  | b :: t, acc, al =>
    let acc2 := ((acc <<< 8) + b) % UINT_MOD
    to_b64_emit acc2 (al + 8) ++ to_b64_loop t acc2 ((al + 8) % 6)

/-- Output length computed up front by to_base64 (olen). -/
def b64_olen (n : Nat) : Nat :=
  ((n / 3) <<< 2) + (if n % 3 = 2 then 3 else if n % 3 = 1 then 2 else 0)

/-- to_base64 from the source: fails (returns (size_t)-1) when the
destination cannot hold the encoding plus the terminating zero,
otherwise produces the Base64 characters. -/
def to_base64 (dst_len : Nat) (src : List Nat) : Option (List Nat) :=
  if dst_len ≤ b64_olen src.length then none else some (to_b64_loop src 0 0)

/-- Loop of from_base64.  State: remaining source, 32-bit accumulator,
buffered bit count, bytes written so far, destination capacity.  Returns
the bytes written together with (on success) the rest of the source
starting at the first non-Base64 character; none on error.  The final
check rejects more than 4 leftover bits or nonzero leftover bits. -/
def from_base64_go : List Nat → Nat → Nat → List Nat → Nat → List Nat × Option (List Nat)
  | [], acc, al, w, _ =>
    if 4 < al ∨ acc &&& ((1 <<< al) - 1) ≠ 0 then (w, none) else (w, some [])
  | c :: rest, acc, al, w, cap =>
    if b64_char_to_byte c = 0xFF then
      if 4 < al ∨ acc &&& ((1 <<< al) - 1) ≠ 0 then (w, none) else (w, some (c :: rest))
    else
      let acc2 := ((acc <<< 6) + b64_char_to_byte c) % UINT_MOD
      if 8 ≤ al + 6 then
        if cap ≤ w.length then (w, none)
        else from_base64_go rest acc2 (al + 6 - 8) (w ++ [(acc2 >>> (al + 6 - 8)) &&& 0xFF]) cap
      else from_base64_go rest acc2 (al + 6) w cap

/-- from_base64 from the source.  The capacity is the value initially in
*dst_len; the first component is the bytes written to dst, the second is
some rest on success (rest begins at the first non-Base64 character) and
none on error.  On success the number of decoded bytes written back into
*dst_len is the length of the first component. -/
def from_base64 (cap : Nat) (src : List Nat) : List Nat × Option (List Nat) :=
  from_base64_go src 0 0 [] cap

/-- Digit-consuming loop of decode_decimal: returns none on overflow of
unsigned long, otherwise the accumulated value, the rest of the input
starting at the first non-digit, and the number of digits consumed. -/
def dec_loop : List Nat → Nat → Option (Nat × List Nat × Nat)
  | [], acc => some (acc, [], 0)
  | c :: rest, acc =>
    if c < 48 ∨ 57 < c then some (acc, c :: rest, 0)
    else if ULONG_MAX / 10 < acc then none
    else if ULONG_MAX - acc * 10 < c - 48 then none
    else
      match dec_loop rest (acc * 10 + (c - 48)) with
      | none => none
      | some (v, r, k) => some (v, r, k + 1)

/-- decode_decimal from the source: strict minimal decimal parser.
Fails when no digit is consumed, when the run has a leading zero and
more than one digit, or when the value overflows unsigned long. -/
def decode_decimal (s : List Nat) : Option (Nat × List Nat) :=
  match dec_loop s 0 with
  | none => none
  | some (v, r, k) =>
    if k = 0 then none
    else if s.head? = some 48 ∧ k ≠ 1 then none
    else some (v, r)

/-- Record argon2i_params from the source.  Each fixed C buffer with its
separate length field is modelled as the list of its meaningful bytes. -/
structure argon2i_params where
  m : Nat
  t : Nat
  p : Nat
  key_id : List Nat
  associated_data : List Nat
  salt : List Nat
  output : List Nat
deriving DecidableEq

/-- Macro CC: match a literal at the start of the input (strncmp) and
consume it; none on mismatch (including input shorter than the literal,
as the terminating zero stops strncmp with a difference). -/
def CC : List Nat → List Nat → Option (List Nat)
  | [], s => some s
  | _ :: _, [] => none
  | p :: ps, c :: cs => if c = p then CC ps cs else none

def lit_argon2i : List Nat := [36, 97, 114, 103, 111, 110, 50, 105]

def lit_meq : List Nat := [36, 109, 61]

def lit_teq : List Nat := [44, 116, 61]

def lit_peq : List Nat := [44, 112, 61]

def lit_keyid : List Nat := [44, 107, 101, 121, 105, 100, 61]

def lit_data : List Nat := [44, 100, 97, 116, 97, 61]

def lit_dollar : List Nat := [36]

def lit_enc_head : List Nat := [36, 97, 114, 103, 111, 110, 50, 105, 36, 109, 61]

/-- Salt and output part of argon2i_decode_string: after the optional
fields, an empty rest is a parameters-only success; otherwise a dollar,
the salt (capacity 48, at least 8 bytes), then optionally a dollar and
the output (capacity 64, at least 12 bytes), and the input must be fully
consumed. -/
def d_salt_out (pp : argon2i_params) (str : List Nat) : argon2i_params × Bool :=
  if str = [] then (pp, true)
  else
    match CC lit_dollar str with
    | none => (pp, false)
    | some s1 =>
      match from_base64 48 s1 with
      | (_, none) => (pp, false)
      | (w, some s2) =>
        let pp2 := { pp with salt := w }
        if pp2.salt.length < 8 then (pp2, false)
        else if s2 = [] then (pp2, true)
        else
          match CC lit_dollar s2 with
          | none => (pp2, false)
          | some s3 =>
            match from_base64 64 s3 with
            | (_, none) => (pp2, false)
            | (w2, some s4) =>
              let pp3 := { pp2 with output := w2 }
              if pp3.output.length < 12 then (pp3, false)
              else (pp3, s4.isEmpty)

/-- Optional ,data= field of argon2i_decode_string (CC_opt with BIN of
capacity 32). -/
def d_data (pp : argon2i_params) (str : List Nat) : argon2i_params × Bool :=
  match CC lit_data str with
  | some s1 =>
    match from_base64 32 s1 with
    | (_, none) => (pp, false)
    | (w, some s2) => d_salt_out { pp with associated_data := w } s2
  | none => d_salt_out pp str

/-- Optional ,keyid= field of argon2i_decode_string (CC_opt with BIN of
capacity 8). -/
def d_keyid (pp : argon2i_params) (str : List Nat) : argon2i_params × Bool :=
  match CC lit_keyid str with
  | some s1 =>
    match from_base64 8 s1 with
    | (_, none) => (pp, false)
    | (w, some s2) => d_data { pp with key_id := w } s2
  | none => d_data pp str

/-- Range validation of argon2i_decode_string: m and t positive and
fitting in 32 bits (width-tolerant shift check), p in 1..255, m at least
8 p (the shift p << 3 is unsigned long arithmetic). -/
def d_checks (pp : argon2i_params) (str : List Nat) : argon2i_params × Bool :=
  if pp.m < 1 ∨ 3 < pp.m >>> 30 then (pp, false)
  else if pp.t < 1 ∨ 3 < pp.t >>> 30 then (pp, false)
  else if pp.p < 1 ∨ 255 < pp.p then (pp, false)
  else if pp.m < (pp.p <<< 3) % ULONG_MOD then (pp, false)
  else d_keyid pp str

/-- argon2i_decode_string from the source, as a state transformer on the
caller-supplied record: the four optional lengths are zeroed first, then
fields are written in program order, so a failing parse can leave fields
partially updated exactly as the C code does.  The Bool is the return
value (true = 1, false = 0). -/
def argon2i_decode_string (pp0 : argon2i_params) (str0 : List Nat) : argon2i_params × Bool :=
  let pp := { pp0 with key_id := ([] : List Nat), associated_data := ([] : List Nat),
                       salt := ([] : List Nat), output := ([] : List Nat) }
  match CC lit_argon2i str0 with
  | none => (pp, false)
  | some s1 =>
    match CC lit_meq s1 with
    | none => (pp, false)
    | some s2 =>
      match decode_decimal s2 with
      | none => (pp, false)
      | some (m, s3) =>
        let ppm := { pp with m := m }
        match CC lit_teq s3 with
        | none => (ppm, false)
        | some s4 =>
          match decode_decimal s4 with
          | none => (ppm, false)
          | some (t, s5) =>
            let ppt := { ppm with t := t }
            match CC lit_peq s5 with
            | none => (ppt, false)
            | some s6 =>
              match decode_decimal s6 with
              | none => (ppt, false)
              | some (p, s7) => d_checks { ppt with p := p } s7

/-- Digit emission of sprintf %lu: repeated division by 10, digits
accumulated most significant first.  The fuel argument (n + 1 at the top
call) bounds the number of divisions; it never runs out because n has at
most n + 1 decimal digits. -/
def dec_chars_core : Nat → Nat → List Nat → List Nat
  | 0, _, acc => acc
  | fuel + 1, n, acc =>
    if n / 10 = 0 then (n % 10 + 48) :: acc
    else dec_chars_core fuel (n / 10) ((n % 10 + 48) :: acc)

/-- Character string produced by sprintf %lu for n. -/
def decimal_chars (n : Nat) : List Nat := dec_chars_core (n + 1) n []

/-- Macro SS of argon2i_encode_string: append a literal if the remaining
capacity exceeds its length (room for the terminating zero), consuming
that much capacity. -/
def SS (s : List Nat) (st : List Nat × Nat) : Option (List Nat × Nat) :=
  if st.2 ≤ s.length then none else some (st.1 ++ s, st.2 - s.length)

/-- Macro SX: print a number with sprintf %lu and emit it with SS. -/
def SX (n : Nat) (st : List Nat × Nat) : Option (List Nat × Nat) :=
  SS (decimal_chars n) st

/-- Macro SB: Base64-encode a binary field into the remaining capacity,
consuming olen characters. -/
def SB (buf : List Nat) (st : List Nat × Nat) : Option (List Nat × Nat) :=
  match to_base64 st.2 buf with
  | none => none
  | some cs => some (st.1 ++ cs, st.2 - b64_olen buf.length)

/-- Body of argon2i_encode_string: fixed literals and fields in order,
keyid and data only when nonempty, salt and output segments only when
the salt (resp. output) is nonempty. -/
def encode_st (pp : argon2i_params) (st : List Nat × Nat) : Option (List Nat × Nat) :=
  (((((SS lit_enc_head st).bind (SX pp.m) |>.bind (SS lit_teq) |>.bind (SX pp.t)
      |>.bind (SS lit_peq) |>.bind (SX pp.p)).bind
    (fun st1 =>
      if 0 < pp.key_id.length then (SS lit_keyid st1).bind (SB pp.key_id) else some st1)).bind
    (fun st2 =>
      if 0 < pp.associated_data.length then
        (SS lit_data st2).bind (SB pp.associated_data)
      else some st2)).bind
    (fun st3 =>
      if pp.salt.length = 0 then some st3
      else
        ((SS lit_dollar st3).bind (SB pp.salt)).bind
          (fun st4 =>
            if pp.output.length = 0 then some st4
            else (SS lit_dollar st4).bind (SB pp.output))))

/-- argon2i_encode_string from the source: some produced string (without
the terminating zero) on success, none when the destination capacity is
insufficient. -/
def argon2i_encode_string (dst_len : Nat) (pp : argon2i_params) : Option (List Nat) :=
  (encode_st pp (([] : List Nat), dst_len)).map (fun st => st.1)

/-- Test whether a character belongs to the Base64 alphabet, as the
decoding loop sees it. -/
def isB64 (c : Nat) : Bool := b64_char_to_byte c != 0xFF

/-- Run of Base64 characters consumed by the from_base64 loop. -/
def b64_run (s : List Nat) : List Nat := s.takeWhile isB64

/-- Position where the from_base64 loop stops: the suffix starting at
the first non-Base64 character. -/
def b64_rest (s : List Nat) : List Nat := s.dropWhile isB64

/-- Bytes that the from_base64 loop emits when no capacity limit
intervenes, from loop state (acc, al). -/
def b64_emit : List Nat → Nat → Nat → List Nat
  | [], _, _ => []
  | c :: rest, acc, al =>
    if b64_char_to_byte c = 0xFF then []
    else
      let acc2 := ((acc <<< 6) + b64_char_to_byte c) % UINT_MOD
      if 8 ≤ al + 6 then ((acc2 >>> (al + 6 - 8)) &&& 0xFF) :: b64_emit rest acc2 (al + 6 - 8)
      else b64_emit rest acc2 (al + 6)

/-- Accumulator and buffered bit count of the from_base64 loop when it
stops, from loop state (acc, al). -/
def b64_fin : List Nat → Nat → Nat → Nat × Nat
  | [], acc, al => (acc, al)
  | c :: rest, acc, al =>
    if b64_char_to_byte c = 0xFF then (acc, al)
    else
      let acc2 := ((acc <<< 6) + b64_char_to_byte c) % UINT_MOD
      if 8 ≤ al + 6 then b64_fin rest acc2 (al + 6 - 8) else b64_fin rest acc2 (al + 6)

/-- Decimal digit test, the loop condition of decode_decimal. -/
def isDig (c : Nat) : Bool := decide (48 ≤ c ∧ c ≤ 57)

/-- Value of a list of decimal digit characters, most significant
first. -/
def digitsVal (ds : List Nat) : Nat := ds.foldl (fun a c => a * 10 + (c - 48)) 0

/-- The head of the list, if any, is not a Base64 character.  Used to
state where a Base64 field may stop inside a longer hash string. -/
def headNA (l : List Nat) : Prop :=
  match l.head? with
  | none => True
  | some c => b64_char_to_byte c = 0xFF

/-- The head of the list, if any, is not a decimal digit.  Used to state
where a decimal field stops inside a longer hash string. -/
def headND (l : List Nat) : Prop :=
  match l.head? with
  | none => True
  | some c => c < 48 ∨ 57 < c

/-- A zero record, used as a fresh destination for decoding. -/
def pp_init : argon2i_params := ⟨0, 0, 0, [], [], [], []⟩

/-- Data Model invariants of the spec for a record: numeric ranges,
m at least 8 p, field capacities, output only together with salt, and
fields made of bytes. -/
def ValidRecord (pp : argon2i_params) : Prop :=
  1 ≤ pp.m ∧ pp.m ≤ 2 ^ 32 - 1 ∧ 1 ≤ pp.t ∧ pp.t ≤ 2 ^ 32 - 1 ∧
  1 ≤ pp.p ∧ pp.p ≤ 255 ∧ 8 * pp.p ≤ pp.m ∧
  pp.key_id.length ≤ 8 ∧ pp.associated_data.length ≤ 32 ∧
  (pp.salt.length = 0 ∨ (8 ≤ pp.salt.length ∧ pp.salt.length ≤ 48)) ∧
  (pp.output.length = 0 ∨ (12 ≤ pp.output.length ∧ pp.output.length ≤ 64)) ∧
  (pp.output.length ≠ 0 → pp.salt.length ≠ 0) ∧
  (∀ b ∈ pp.key_id, b < 256) ∧ (∀ b ∈ pp.associated_data, b < 256) ∧
  (∀ b ∈ pp.salt, b < 256) ∧ (∀ b ∈ pp.output, b < 256)

/-- The full text that argon2i_encode_string produces when the
destination is large enough: literals and fields in encoder order. -/
def encode_str (pp : argon2i_params) : List Nat :=
  lit_enc_head ++ decimal_chars pp.m ++ lit_teq ++ decimal_chars pp.t ++
    lit_peq ++ decimal_chars pp.p ++
    (if 0 < pp.key_id.length then lit_keyid ++ to_b64_loop pp.key_id 0 0 else []) ++
    (if 0 < pp.associated_data.length then lit_data ++ to_b64_loop pp.associated_data 0 0
     else []) ++
    (if pp.salt.length = 0 then []
     else lit_dollar ++ to_b64_loop pp.salt 0 0 ++
       (if pp.output.length = 0 then [] else lit_dollar ++ to_b64_loop pp.output 0 0))

/-- Salt and output segment of the encoded text, as the encoder emits
it. -/
def seg_salt_out (pp : argon2i_params) : List Nat :=
  if pp.salt.length = 0 then []
  else lit_dollar ++ to_b64_loop pp.salt 0 0 ++
    (if pp.output.length = 0 then [] else lit_dollar ++ to_b64_loop pp.output 0 0)

/-- Associated-data segment of the encoded text followed by the salt and
output segment. -/
def seg_data (pp : argon2i_params) : List Nat :=
  (if 0 < pp.associated_data.length then lit_data ++ to_b64_loop pp.associated_data 0 0
   else []) ++ seg_salt_out pp

/-- Key-id segment of the encoded text followed by the rest of the
optional segments. -/
def seg_keyid (pp : argon2i_params) : List Nat :=
  (if 0 < pp.key_id.length then lit_keyid ++ to_b64_loop pp.key_id 0 0 else []) ++ seg_data pp

def kat_bad_m15 : List Nat := [36, 97, 114, 103, 111, 110, 50, 105, 36, 109, 61, 49, 53, 44, 116, 61, 53, 48, 48, 48, 44, 112, 61, 50]

def kat_bad_t0 : List Nat := [36, 97, 114, 103, 111, 110, 50, 105, 36, 109, 61, 49, 50, 48, 44, 116, 61, 48, 44, 112, 61, 50]

def kat_bad_p0 : List Nat := [36, 97, 114, 103, 111, 110, 50, 105, 36, 109, 61, 49, 50, 48, 44, 116, 61, 53, 48, 48, 48, 44, 112, 61, 48]

def kat_bad_p256 : List Nat := [36, 97, 114, 103, 111, 110, 50, 105, 36, 109, 61, 50, 48, 48, 48, 44, 116, 61, 53, 48, 48, 48, 44, 112, 61, 50, 53, 54]

def kat_bad_t32 : List Nat := [36, 97, 114, 103, 111, 110, 50, 105, 36, 109, 61, 49, 50, 48, 44, 116, 61, 52, 50, 57, 52, 57, 54, 55, 50, 57, 54, 44, 112, 61, 50]

def kat_bad_keyid9 : List Nat := [36, 97, 114, 103, 111, 110, 50, 105, 36, 109, 61, 49, 50, 48, 44, 116, 61, 53, 48, 48, 48, 44, 112, 61, 50, 44, 107, 101, 121, 105, 100, 61, 72, 106, 53, 43, 100, 115, 75, 48, 90]

def kat_keyid_empty : List Nat := [36, 97, 114, 103, 111, 110, 50, 105, 36, 109, 61, 49, 50, 48, 44, 116, 61, 53, 48, 48, 48, 44, 112, 61, 50, 44, 107, 101, 121, 105, 100, 61]

def kat_params_only : List Nat := [36, 97, 114, 103, 111, 110, 50, 105, 36, 109, 61, 49, 50, 48, 44, 116, 61, 53, 48, 48, 48, 44, 112, 61, 50]
/-- Common shape of one encoder write: append a block when the remaining
capacity strictly exceeds its length (leaving room for the terminating
zero), and consume that much capacity. -/
def appendGuard (a : List Nat) (st : List Nat × Nat) : Option (List Nat × Nat) :=
  if a.length < st.2 then some (st.1 ++ a, st.2 - a.length) else none

theorem b64_inv : ∀ x < 64, b64_char_to_byte (b64_byte_to_char x) = x := by decide

theorem b64_char_comma : b64_char_to_byte 44 = 0xFF := by decide

theorem b64_char_dollar : b64_char_to_byte 36 = 0xFF := by decide

theorem and_mask_eq_mod (x k : Nat) : x &&& (1 <<< k) - 1 = x % 2 ^ k := by
  rw [Nat.one_shiftLeft, Nat.and_pow_two_sub_one_eq_mod]

theorem from_base64_go_eq (src : List Nat) : ∀ acc al w cap, w.length ≤ cap →
    from_base64_go src acc al w cap =
      if w.length + (b64_emit src acc al).length ≤ cap then
        (w ++ b64_emit src acc al,
         if 4 < (b64_fin src acc al).2 ∨
            (b64_fin src acc al).1 &&& ((1 <<< (b64_fin src acc al).2) - 1) ≠ 0 then none
         else some (b64_rest src))
      else ((w ++ b64_emit src acc al).take cap, none) := by
  induction src with
  | nil =>
    intro acc al w cap hw
    by_cases hC : 4 < al ∨ acc &&& ((1 <<< al) - 1) ≠ 0
    · simp [from_base64_go, b64_emit, b64_fin, hC, hw]
    · simp [from_base64_go, b64_emit, b64_fin, b64_rest, hC, hw]
  | cons c rest ih =>
    intro acc al w cap hw
    by_cases hc : b64_char_to_byte c = 0xFF
    · have hb : isB64 c = false := by simp [isB64, hc]
      have hr : b64_rest (c :: rest) = c :: rest := by
        unfold b64_rest
        rw [List.dropWhile_cons, if_neg (by simp [hb])]
      by_cases hC : 4 < al ∨ acc &&& ((1 <<< al) - 1) ≠ 0
      · simp [from_base64_go, b64_emit, b64_fin, hc, hC, hw]
      · simp [from_base64_go, b64_emit, b64_fin, hr, hc, hC, hw]
    · have hb : isB64 c = true := by simp [isB64, hc]
      have hr : b64_rest (c :: rest) = b64_rest rest := by
        unfold b64_rest
        rw [List.dropWhile_cons, if_pos hb]
      by_cases hal : 8 ≤ al + 6
      · have he : b64_emit (c :: rest) acc al =
            (((((acc <<< 6) + b64_char_to_byte c) % UINT_MOD) >>> (al + 6 - 8)) &&& 0xFF) ::
              b64_emit rest (((acc <<< 6) + b64_char_to_byte c) % UINT_MOD) (al + 6 - 8) := by
          simp only [b64_emit, if_neg hc, if_pos hal]
        have hf : b64_fin (c :: rest) acc al =
            b64_fin rest (((acc <<< 6) + b64_char_to_byte c) % UINT_MOD) (al + 6 - 8) := by
          simp only [b64_fin, if_neg hc, if_pos hal]
        rw [he, hf, hr]
        by_cases hcap : cap ≤ w.length
        · have h1 : from_base64_go (c :: rest) acc al w cap = (w, none) := by
            simp only [from_base64_go]
            rw [if_neg hc, if_pos hal, if_pos hcap]
          rw [h1, if_neg (by simp only [List.length_cons]; omega)]
          rw [List.take_left' (show w.length = cap by omega)]
        · have h1 : from_base64_go (c :: rest) acc al w cap =
              from_base64_go rest (((acc <<< 6) + b64_char_to_byte c) % UINT_MOD) (al + 6 - 8)
                (w ++ [((((acc <<< 6) + b64_char_to_byte c) % UINT_MOD) >>> (al + 6 - 8)) &&& 0xFF])
                cap := by
            simp only [from_base64_go]
            rw [if_neg hc, if_pos hal, if_neg hcap]
          rw [h1, ih _ _ _ _ (by simp only [List.length_append, List.length_cons, List.length_nil]; omega)]
          generalize al + 6 - 8 = al2
          split_ifs <;>
              (try simp [List.append_assoc]) <;>
              (simp only [List.length_append, List.length_cons, List.length_nil] at *) <;>
              omega
      · have he : b64_emit (c :: rest) acc al =
            b64_emit rest (((acc <<< 6) + b64_char_to_byte c) % UINT_MOD) (al + 6) := by
          simp only [b64_emit, if_neg hc, if_neg hal]
        have hf : b64_fin (c :: rest) acc al =
            b64_fin rest (((acc <<< 6) + b64_char_to_byte c) % UINT_MOD) (al + 6) := by
          simp only [b64_fin, if_neg hc, if_neg hal]
        have h1 : from_base64_go (c :: rest) acc al w cap =
            from_base64_go rest (((acc <<< 6) + b64_char_to_byte c) % UINT_MOD) (al + 6) w cap := by
          simp only [from_base64_go]
          rw [if_neg hc, if_neg hal]
        rw [he, hf, hr, h1, ih _ _ _ _ hw]
theorem b64_emit_length_le (src : List Nat) : ∀ acc al, (b64_emit src acc al).length ≤ src.length := by
  induction src with
  | nil => intro acc al; simp [b64_emit]
  | cons c rest ih =>
    intro acc al
    by_cases hc : b64_char_to_byte c = 0xFF
    · simp [b64_emit, hc]
    · by_cases hal : 8 ≤ al + 6
      · simp only [b64_emit, if_neg hc, if_pos hal, List.length_cons]
        have := ih (((acc <<< 6) + b64_char_to_byte c) % UINT_MOD) (al + 6 - 8)
        omega
      · simp only [b64_emit, if_neg hc, if_neg hal, List.length_cons]
        have := ih (((acc <<< 6) + b64_char_to_byte c) % UINT_MOD) (al + 6)
        omega

theorem from_base64_eq (src : List Nat) (cap : Nat)
    (h : (b64_emit src 0 0).length ≤ cap) :
    from_base64 cap src =
      (b64_emit src 0 0,
       if 4 < (b64_fin src 0 0).2 ∨
          (b64_fin src 0 0).1 &&& ((1 <<< (b64_fin src 0 0).2) - 1) ≠ 0 then none
       else some (b64_rest src)) := by
  unfold from_base64
  rw [from_base64_go_eq src 0 0 [] cap (by simp)]
  rw [if_pos (by simpa using h)]
  simp

theorem from_base64_short (src : List Nat) (cap : Nat)
    (h : cap < (b64_emit src 0 0).length) :
    from_base64 cap src = ((b64_emit src 0 0).take cap, none) := by
  unfold from_base64
  rw [from_base64_go_eq src 0 0 [] cap (by simp)]
  rw [if_neg (by simpa using Nat.not_le_of_lt h)]
  simp

theorem b64_fin_al (src : List Nat) : ∀ acc al, al < 8 →
    (b64_fin src acc al).2 = (al + 6 * (b64_run src).length) % 8 := by
  induction src with
  | nil =>
    intro acc al h
    simp only [b64_fin, b64_run, List.takeWhile_nil, List.length_nil, Nat.mul_zero, Nat.add_zero]
    omega
  | cons c rest ih =>
    intro acc al h
    by_cases hc : b64_char_to_byte c = 0xFF
    · have hb : isB64 c = false := by simp [isB64, hc]
      simp only [b64_fin, if_pos hc, b64_run, List.takeWhile_cons, hb, Bool.false_eq_true,
        if_neg, ite_false, List.length_nil, Nat.mul_zero, Nat.add_zero]
      omega
    · have hb : isB64 c = true := by simp [isB64, hc]
      have hrun : (b64_run (c :: rest)).length = (b64_run rest).length + 1 := by
        simp [b64_run, List.takeWhile_cons, hb]
      by_cases hal : 8 ≤ al + 6
      · simp only [b64_fin, if_neg hc, if_pos hal]
        rw [ih _ (al + 6 - 8) (by omega), hrun]
        omega
      · simp only [b64_fin, if_neg hc, if_neg hal]
        rw [ih _ (al + 6) (by omega), hrun]
        omega
theorem list_chunk3_ind (P : List Nat → Prop) (h0 : P []) (h1 : ∀ b, P [b])
    (h2 : ∀ b c, P [b, c]) (h3 : ∀ b c d l, P l → P (b :: c :: d :: l)) :
    ∀ l, P l := by
  intro l
  generalize hn : l.length = n
  induction n using Nat.strong_induction_on generalizing l with
  | _ n ih =>
    match l, hn with
    | [], _ => exact h0
    | [b], _ => exact h1 b
    | [b, c], _ => exact h2 b c
    | b :: c :: d :: t, hn =>
      exact h3 b c d t (ih t.length (by simp only [List.length_cons] at hn; omega) t rfl)

theorem and63 (x : Nat) : x &&& 63 = x % 64 := by
  have h := Nat.and_pow_two_sub_one_eq_mod x 6
  norm_num at h
  exact h

theorem and255 (x : Nat) : x &&& 255 = x % 256 := by
  have h := Nat.and_pow_two_sub_one_eq_mod x 8
  norm_num at h
  exact h

theorem b64_inv_mod (x : Nat) : b64_char_to_byte (b64_byte_to_char (x % 64)) = x % 64 :=
  b64_inv (x % 64) (Nat.mod_lt x (by norm_num))

theorem b64_alpha_mod (x : Nat) : ¬ b64_char_to_byte (b64_byte_to_char (x % 64)) = 0xFF := by
  rw [b64_inv_mod]
  have := Nat.mod_lt x (show 0 < 64 by norm_num)
  omega

theorem to_b64_emit_8 (acc : Nat) :
    to_b64_emit acc 8 = [b64_byte_to_char ((acc >>> 2) &&& 0x3F)] := rfl

theorem to_b64_emit_10 (acc : Nat) :
    to_b64_emit acc 10 = [b64_byte_to_char ((acc >>> 4) &&& 0x3F)] := rfl

theorem to_b64_emit_12 (acc : Nat) :
    to_b64_emit acc 12 =
      [b64_byte_to_char ((acc >>> 6) &&& 0x3F), b64_byte_to_char ((acc >>> 0) &&& 0x3F)] := rfl
theorem b64_step6 (y : Nat) (more : List Nat) (acc : Nat) :
    b64_emit (b64_byte_to_char (y &&& 0x3F) :: more) acc 0 =
      b64_emit more (((acc <<< 6) + (y &&& 0x3F)) % UINT_MOD) 6 ∧
    b64_fin (b64_byte_to_char (y &&& 0x3F) :: more) acc 0 =
      b64_fin more (((acc <<< 6) + (y &&& 0x3F)) % UINT_MOD) 6 ∧
    b64_rest (b64_byte_to_char (y &&& 0x3F) :: more) = b64_rest more := by
  rw [and63]
  have hc := b64_alpha_mod y
  have hv := b64_inv_mod y
  have hc2 : ¬ (y % 64 = 255) := by
    have := Nat.mod_lt y (show 0 < 64 by norm_num)
    omega
  refine ⟨?_, ?_, ?_⟩
  · simp only [b64_emit, hv, if_neg hc, if_neg hc2]
    norm_num
  · simp only [b64_fin, hv, if_neg hc, if_neg hc2]
    norm_num
  · unfold b64_rest
    rw [List.dropWhile_cons, if_pos (by simp [isB64, hc])]

theorem b64_step12 (y : Nat) (more : List Nat) (acc : Nat) :
    b64_emit (b64_byte_to_char (y &&& 0x3F) :: more) acc 6 =
      (((((acc <<< 6) + (y &&& 0x3F)) % UINT_MOD) >>> 4) &&& 0xFF) ::
        b64_emit more (((acc <<< 6) + (y &&& 0x3F)) % UINT_MOD) 4 ∧
    b64_fin (b64_byte_to_char (y &&& 0x3F) :: more) acc 6 =
      b64_fin more (((acc <<< 6) + (y &&& 0x3F)) % UINT_MOD) 4 ∧
    b64_rest (b64_byte_to_char (y &&& 0x3F) :: more) = b64_rest more := by
  rw [and63]
  have hc := b64_alpha_mod y
  have hv := b64_inv_mod y
  have hc2 : ¬ (y % 64 = 255) := by
    have := Nat.mod_lt y (show 0 < 64 by norm_num)
    omega
  refine ⟨?_, ?_, ?_⟩
  · simp only [b64_emit, hv, if_neg hc, if_neg hc2]
    norm_num
  · simp only [b64_fin, hv, if_neg hc, if_neg hc2]
    norm_num
  · unfold b64_rest
    rw [List.dropWhile_cons, if_pos (by simp [isB64, hc])]

theorem b64_step10 (y : Nat) (more : List Nat) (acc : Nat) :
    b64_emit (b64_byte_to_char (y &&& 0x3F) :: more) acc 4 =
      (((((acc <<< 6) + (y &&& 0x3F)) % UINT_MOD) >>> 2) &&& 0xFF) ::
        b64_emit more (((acc <<< 6) + (y &&& 0x3F)) % UINT_MOD) 2 ∧
    b64_fin (b64_byte_to_char (y &&& 0x3F) :: more) acc 4 =
      b64_fin more (((acc <<< 6) + (y &&& 0x3F)) % UINT_MOD) 2 ∧
    b64_rest (b64_byte_to_char (y &&& 0x3F) :: more) = b64_rest more := by
  rw [and63]
  have hc := b64_alpha_mod y
  have hv := b64_inv_mod y
  have hc2 : ¬ (y % 64 = 255) := by
    have := Nat.mod_lt y (show 0 < 64 by norm_num)
    omega
  refine ⟨?_, ?_, ?_⟩
  · simp only [b64_emit, hv, if_neg hc, if_neg hc2]
    norm_num
  · simp only [b64_fin, hv, if_neg hc, if_neg hc2]
    norm_num
  · unfold b64_rest
    rw [List.dropWhile_cons, if_pos (by simp [isB64, hc])]

theorem b64_step8 (y : Nat) (more : List Nat) (acc : Nat) :
    b64_emit (b64_byte_to_char (y &&& 0x3F) :: more) acc 2 =
      (((((acc <<< 6) + (y &&& 0x3F)) % UINT_MOD) >>> 0) &&& 0xFF) ::
        b64_emit more (((acc <<< 6) + (y &&& 0x3F)) % UINT_MOD) 0 ∧
    b64_fin (b64_byte_to_char (y &&& 0x3F) :: more) acc 2 =
      b64_fin more (((acc <<< 6) + (y &&& 0x3F)) % UINT_MOD) 0 ∧
    b64_rest (b64_byte_to_char (y &&& 0x3F) :: more) = b64_rest more := by
  rw [and63]
  have hc := b64_alpha_mod y
  have hv := b64_inv_mod y
  have hc2 : ¬ (y % 64 = 255) := by
    have := Nat.mod_lt y (show 0 < 64 by norm_num)
    omega
  refine ⟨?_, ?_, ?_⟩
  · simp only [b64_emit, hv, if_neg hc, if_neg hc2]
    norm_num
  · simp only [b64_fin, hv, if_neg hc, if_neg hc2]
    norm_num
  · unfold b64_rest
    rw [List.dropWhile_cons, if_pos (by simp [isB64, hc])]

theorem b64_stop (rest : List Nat) (acc al : Nat) (hna : headNA rest) :
    b64_emit rest acc al = [] ∧ b64_fin rest acc al = (acc, al) ∧ b64_rest rest = rest := by
  cases rest with
  | nil => simp [b64_emit, b64_fin, b64_rest]
  | cons c t =>
    have hc : b64_char_to_byte c = 0xFF := by simpa [headNA] using hna
    refine ⟨by simp [b64_emit, hc], by simp [b64_fin, hc], ?_⟩
    unfold b64_rest
    rw [List.dropWhile_cons, if_neg (by simp [isB64, hc])]
theorem b64_roundtrip_aux : ∀ bs : List Nat, (∀ b ∈ bs, b < 256) →
    ∀ acc_e acc_d rest, headNA rest →
      b64_emit (to_b64_loop bs acc_e 0 ++ rest) acc_d 0 = bs ∧
      (b64_fin (to_b64_loop bs acc_e 0 ++ rest) acc_d 0).2 ≤ 4 ∧
      ((b64_fin (to_b64_loop bs acc_e 0 ++ rest) acc_d 0).1 &&&
         ((1 <<< (b64_fin (to_b64_loop bs acc_e 0 ++ rest) acc_d 0).2) - 1)) = 0 ∧
      b64_rest (to_b64_loop bs acc_e 0 ++ rest) = rest := by
  refine list_chunk3_ind _ ?_ ?_ ?_ ?_
  · intro _ acc_e acc_d rest hna
    obtain ⟨he, hf, hr⟩ := b64_stop rest acc_d 0 hna
    have hloop : to_b64_loop [] acc_e 0 = [] := by simp [to_b64_loop]
    rw [hloop, List.nil_append, he, hf, hr]
    simp
  · intro b hlt acc_e acc_d rest hna
    have hb : b < 256 := hlt b (by simp)
    have hloop : to_b64_loop [b] acc_e 0 =
        [b64_byte_to_char (((((acc_e <<< 8) + b) % UINT_MOD) >>> 2) &&& 0x3F),
         b64_byte_to_char (((((acc_e <<< 8) + b) % UINT_MOD) <<< 4) &&& 0x3F)] := by
      simp [to_b64_loop, to_b64_emit_8]
    rw [hloop]
    obtain ⟨e1, f1, r1⟩ := b64_step6 ((((acc_e <<< 8) + b) % UINT_MOD) >>> 2)
      (b64_byte_to_char (((((acc_e <<< 8) + b) % UINT_MOD) <<< 4) &&& 0x3F) :: rest) acc_d
    obtain ⟨e2, f2, r2⟩ := b64_step12 ((((acc_e <<< 8) + b) % UINT_MOD) <<< 4) rest
      (((acc_d <<< 6) + (((((acc_e <<< 8) + b) % UINT_MOD) >>> 2) &&& 0x3F)) % UINT_MOD)
    obtain ⟨he, hf, hr⟩ := b64_stop rest _ 4 hna
    simp only [List.cons_append, List.nil_append]
    rw [e1, e2, he, f1, f2, hf, r1, r2, hr]
    refine ⟨?_, by norm_num, ?_, rfl⟩
    · simp only [and63, and255, Nat.shiftLeft_eq, Nat.shiftRight_eq_div_pow, UINT_MOD]
      norm_num
      omega
    · rw [and_mask_eq_mod]
      simp only [and63, Nat.shiftLeft_eq, Nat.shiftRight_eq_div_pow, UINT_MOD]
      norm_num
      omega
  · intro b1 b2 hlt acc_e acc_d rest hna
    have hb1 : b1 < 256 := hlt b1 (by simp)
    have hb2 : b2 < 256 := hlt b2 (by simp)
    have hloop : to_b64_loop [b1, b2] acc_e 0 =
        [b64_byte_to_char (((((acc_e <<< 8) + b1) % UINT_MOD) >>> 2) &&& 0x3F),
         b64_byte_to_char ((((((((acc_e <<< 8) + b1) % UINT_MOD) <<< 8) + b2) % UINT_MOD) >>> 4) &&& 0x3F),
         b64_byte_to_char ((((((((acc_e <<< 8) + b1) % UINT_MOD) <<< 8) + b2) % UINT_MOD) <<< 2) &&& 0x3F)] := by
      simp [to_b64_loop, to_b64_emit_8, to_b64_emit_10]
    rw [hloop]
    simp only [List.cons_append, List.nil_append]
    obtain ⟨e1, f1, r1⟩ := b64_step6 ((((acc_e <<< 8) + b1) % UINT_MOD) >>> 2) _ acc_d
    rw [e1, f1, r1]
    obtain ⟨e2, f2, r2⟩ := b64_step12 (((((((acc_e <<< 8) + b1) % UINT_MOD) <<< 8) + b2) % UINT_MOD) >>> 4) _ _
    rw [e2, f2, r2]
    obtain ⟨e3, f3, r3⟩ := b64_step10 (((((((acc_e <<< 8) + b1) % UINT_MOD) <<< 8) + b2) % UINT_MOD) <<< 2) _ _
    rw [e3, f3, r3]
    obtain ⟨he, hf, hr⟩ := b64_stop rest _ 2 hna
    rw [he, hf, hr]
    refine ⟨?_, by norm_num, ?_, rfl⟩
    · simp only [List.cons.injEq, and_true]
      refine ⟨?_, ?_⟩ <;>
        (simp only [and63, and255, Nat.shiftLeft_eq, Nat.shiftRight_eq_div_pow, UINT_MOD]
         norm_num
         omega)
    · rw [and_mask_eq_mod]
      simp only [and63, Nat.shiftLeft_eq, Nat.shiftRight_eq_div_pow, UINT_MOD]
      norm_num
      omega
  · intro b1 b2 b3 t ih hlt acc_e acc_d rest hna
    have hb1 : b1 < 256 := hlt b1 (by simp)
    have hb2 : b2 < 256 := hlt b2 (by simp)
    have hb3 : b3 < 256 := hlt b3 (by simp)
    have hlt2 : ∀ b ∈ t, b < 256 := fun b hb => hlt b (by simp [hb])
    have hloop : to_b64_loop (b1 :: b2 :: b3 :: t) acc_e 0 =
        b64_byte_to_char (((((acc_e <<< 8) + b1) % UINT_MOD) >>> 2) &&& 0x3F) :: b64_byte_to_char ((((((((acc_e <<< 8) + b1) % UINT_MOD) <<< 8) + b2) % UINT_MOD) >>> 4) &&& 0x3F) :: b64_byte_to_char (((((((((((acc_e <<< 8) + b1) % UINT_MOD) <<< 8) + b2) % UINT_MOD) <<< 8) + b3) % UINT_MOD) >>> 6) &&& 0x3F) :: b64_byte_to_char (((((((((((acc_e <<< 8) + b1) % UINT_MOD) <<< 8) + b2) % UINT_MOD) <<< 8) + b3) % UINT_MOD) >>> 0) &&& 0x3F) :: to_b64_loop t (((((((((acc_e <<< 8) + b1) % UINT_MOD) <<< 8) + b2) % UINT_MOD) <<< 8) + b3) % UINT_MOD) 0 := by
      simp [to_b64_loop, to_b64_emit_8, to_b64_emit_10, to_b64_emit_12]
    rw [hloop]
    simp only [List.cons_append]
    obtain ⟨e1, f1, r1⟩ := b64_step6 ((((acc_e <<< 8) + b1) % UINT_MOD) >>> 2) _ acc_d
    rw [e1, f1, r1]
    obtain ⟨e2, f2, r2⟩ := b64_step12 (((((((acc_e <<< 8) + b1) % UINT_MOD) <<< 8) + b2) % UINT_MOD) >>> 4) _ (((acc_d <<< 6) + (((((acc_e <<< 8) + b1) % UINT_MOD) >>> 2) &&& 0x3F)) % UINT_MOD)
    rw [e2, f2, r2]
    obtain ⟨e3, f3, r3⟩ := b64_step10 ((((((((((acc_e <<< 8) + b1) % UINT_MOD) <<< 8) + b2) % UINT_MOD) <<< 8) + b3) % UINT_MOD) >>> 6) _ ((((((acc_d <<< 6) + (((((acc_e <<< 8) + b1) % UINT_MOD) >>> 2) &&& 0x3F)) % UINT_MOD) <<< 6) + ((((((((acc_e <<< 8) + b1) % UINT_MOD) <<< 8) + b2) % UINT_MOD) >>> 4) &&& 0x3F)) % UINT_MOD)
    rw [e3, f3, r3]
    obtain ⟨e4, f4, r4⟩ := b64_step8 ((((((((((acc_e <<< 8) + b1) % UINT_MOD) <<< 8) + b2) % UINT_MOD) <<< 8) + b3) % UINT_MOD) >>> 0) _ (((((((((acc_d <<< 6) + (((((acc_e <<< 8) + b1) % UINT_MOD) >>> 2) &&& 0x3F)) % UINT_MOD) <<< 6) + ((((((((acc_e <<< 8) + b1) % UINT_MOD) <<< 8) + b2) % UINT_MOD) >>> 4) &&& 0x3F)) % UINT_MOD) <<< 6) + (((((((((((acc_e <<< 8) + b1) % UINT_MOD) <<< 8) + b2) % UINT_MOD) <<< 8) + b3) % UINT_MOD) >>> 6) &&& 0x3F)) % UINT_MOD)
    rw [e4, f4, r4]
    obtain ⟨ihe, ihf1, ihf2, ihr⟩ := ih hlt2 (((((((((acc_e <<< 8) + b1) % UINT_MOD) <<< 8) + b2) % UINT_MOD) <<< 8) + b3) % UINT_MOD) ((((((((((((acc_d <<< 6) + (((((acc_e <<< 8) + b1) % UINT_MOD) >>> 2) &&& 0x3F)) % UINT_MOD) <<< 6) + ((((((((acc_e <<< 8) + b1) % UINT_MOD) <<< 8) + b2) % UINT_MOD) >>> 4) &&& 0x3F)) % UINT_MOD) <<< 6) + (((((((((((acc_e <<< 8) + b1) % UINT_MOD) <<< 8) + b2) % UINT_MOD) <<< 8) + b3) % UINT_MOD) >>> 6) &&& 0x3F)) % UINT_MOD) <<< 6) + (((((((((((acc_e <<< 8) + b1) % UINT_MOD) <<< 8) + b2) % UINT_MOD) <<< 8) + b3) % UINT_MOD) >>> 0) &&& 0x3F)) % UINT_MOD) rest hna
    rw [ihe, ihr]
    refine ⟨?_, ihf1, ihf2, rfl⟩
    simp only [List.cons.injEq, and_true]
    refine ⟨?_, ?_, ?_⟩ <;>
      (simp only [and63, and255, Nat.shiftLeft_eq, Nat.shiftRight_eq_div_pow, UINT_MOD]
       norm_num
       omega)
theorem from_base64_to_b64 (bs : List Nat) (hbs : ∀ b ∈ bs, b < 256) (cap : Nat)
    (hcap : bs.length ≤ cap) (rest : List Nat) (hna : headNA rest) :
    from_base64 cap (to_b64_loop bs 0 0 ++ rest) = (bs, some rest) := by
  obtain ⟨he, hf1, hf2, hr⟩ := b64_roundtrip_aux bs hbs 0 0 rest hna
  rw [from_base64_eq _ cap (by rw [he]; exact hcap), he, hr]
  rw [if_neg (by push_neg; exact ⟨by omega, by simpa using hf2⟩)]

theorem to_b64_loop_length : ∀ bs : List Nat, ∀ acc, (to_b64_loop bs acc 0).length = b64_olen bs.length := by
  refine list_chunk3_ind _ ?_ ?_ ?_ ?_
  · intro acc
    simp [to_b64_loop, b64_olen]
  · intro b acc
    simp [to_b64_loop, to_b64_emit_8, b64_olen]
  · intro b c acc
    simp [to_b64_loop, to_b64_emit_8, to_b64_emit_10, b64_olen]
  · intro b1 b2 b3 t ih acc
    simp only [to_b64_loop, to_b64_emit_8, to_b64_emit_10, to_b64_emit_12, Nat.zero_add,
      Nat.reduceAdd, Nat.reduceMod, List.cons_append, List.length_cons, List.length_append,
      List.length_nil]
    rw [ih]
    unfold b64_olen
    rw [Nat.shiftLeft_eq, Nat.shiftLeft_eq]
    split_ifs <;> omega
theorem digitsVal_foldl : ∀ ds : List Nat, ∀ a,
    ds.foldl (fun x c => x * 10 + (c - 48)) a = a * 10 ^ ds.length + digitsVal ds := by
  intro ds
  induction ds with
  | nil => intro a; simp [digitsVal]
  | cons c ds ih =>
    intro a
    simp only [List.foldl_cons, digitsVal, List.length_cons]
    rw [ih (a * 10 + (c - 48)), ih (0 * 10 + (c - 48))]
    ring

theorem dec_loop_eq : ∀ ds : List Nat, ∀ rest acc, (∀ d ∈ ds, 48 ≤ d ∧ d ≤ 57) → headND rest →
    acc ≤ ULONG_MAX →
    dec_loop (ds ++ rest) acc =
      if acc * 10 ^ ds.length + digitsVal ds ≤ ULONG_MAX then
        some (acc * 10 ^ ds.length + digitsVal ds, rest, ds.length)
      else none := by
  intro ds
  induction ds with
  | nil =>
    intro rest acc _ hnd hacc
    simp only [List.nil_append, List.length_nil, pow_zero, Nat.mul_one, digitsVal,
      List.foldl_nil, Nat.add_zero]
    rw [if_pos hacc]
    cases rest with
    | nil => simp [dec_loop]
    | cons c t =>
      have hc : c < 48 ∨ 57 < c := by simpa [headND] using hnd
      simp [dec_loop, hc]
  | cons c ds ih =>
    intro rest acc hds hnd hacc
    have hc : 48 ≤ c ∧ c ≤ 57 := hds c (by simp)
    have hds2 : ∀ d ∈ ds, 48 ≤ d ∧ d ≤ 57 := fun d hd => hds d (by simp [hd])
    have hexp : acc * 10 ^ (c :: ds).length + digitsVal (c :: ds) =
        (acc * 10 + (c - 48)) * 10 ^ ds.length + digitsVal ds := by
      show acc * 10 ^ (ds.length + 1) + digitsVal (c :: ds) = _
      have : digitsVal (c :: ds) = (0 * 10 + (c - 48)) * 10 ^ ds.length + digitsVal ds := by
        show (c :: ds).foldl (fun x c => x * 10 + (c - 48)) 0 = _
        rw [List.foldl_cons, digitsVal_foldl]
      rw [this]
      ring
    have hone : 1 ≤ 10 ^ ds.length := Nat.one_le_pow _ _ (by norm_num)
    have hstep : dec_loop (c :: ds ++ rest) acc =
        (if ULONG_MAX / 10 < acc then none
         else if ULONG_MAX - acc * 10 < c - 48 then none
         else match dec_loop (ds ++ rest) (acc * 10 + (c - 48)) with
           | none => none
           | some (v, r, k) => some (v, r, k + 1)) := by
      simp only [List.cons_append, dec_loop, List.append_eq,
        if_neg (show ¬(c < 48 ∨ 57 < c) by omega)]
    rw [hstep, hexp]
    by_cases ho1 : ULONG_MAX / 10 < acc
    · rw [if_pos ho1]
      have hge : acc * 10 + (c - 48) ≤ (acc * 10 + (c - 48)) * 10 ^ ds.length :=
        Nat.le_mul_of_pos_right _ (by omega)
      rw [if_neg (by
        simp only [ULONG_MAX] at ho1 ⊢
        norm_num at ho1 ⊢
        omega)]
    · rw [if_neg ho1]
      by_cases ho2 : ULONG_MAX - acc * 10 < c - 48
      · rw [if_pos ho2]
        have hge : acc * 10 + (c - 48) ≤ (acc * 10 + (c - 48)) * 10 ^ ds.length :=
          Nat.le_mul_of_pos_right _ (by omega)
        rw [if_neg (by
          simp only [ULONG_MAX] at ho1 ho2 ⊢
          norm_num at ho1 ho2 ⊢
          omega)]
      · rw [if_neg ho2]
        have hacc2 : acc * 10 + (c - 48) ≤ ULONG_MAX := by
          simp only [ULONG_MAX] at ho1 ho2 ⊢
          norm_num at ho1 ho2 ⊢
          omega
        rw [ih rest (acc * 10 + (c - 48)) hds2 hnd hacc2]
        by_cases hfit : (acc * 10 + (c - 48)) * 10 ^ ds.length + digitsVal ds ≤ ULONG_MAX
        · rw [if_pos hfit, if_pos hfit]
          simp [List.length_cons]
        · rw [if_neg hfit, if_neg hfit]
theorem dec_chars_core_spec : ∀ fuel : Nat, ∀ n acc, 0 < n → n < 10 ^ fuel → ∃ ds,
    dec_chars_core fuel n acc = ds ++ acc ∧ ds ≠ [] ∧ (∀ d ∈ ds, 48 ≤ d ∧ d ≤ 57) ∧
    ds.head? ≠ some 48 ∧ digitsVal ds = n := by
  intro fuel
  induction fuel with
  | zero =>
    intro n acc hn hlt
    simp at hlt
    omega
  | succ fuel ih =>
    intro n acc hn hlt
    by_cases h10 : n / 10 = 0
    · refine ⟨[n % 10 + 48], ?_, by simp, by intro d hd; simp at hd; omega, by simp; omega, ?_⟩
      · simp only [dec_chars_core, if_pos h10]
        simp
      · simp [digitsVal]
        omega
    · have h1 : 0 < n / 10 := by omega
      have h2 : n / 10 < 10 ^ fuel := by
        apply Nat.div_lt_of_lt_mul
        rw [pow_succ] at hlt
        omega
      obtain ⟨ds, hgo, hne, hdig, hhd, hval⟩ := ih (n / 10) ((n % 10 + 48) :: acc) h1 h2
      refine ⟨ds ++ [n % 10 + 48], ?_, by simp, ?_, ?_, ?_⟩
      · simp only [dec_chars_core, if_neg h10]
        rw [hgo]
        simp
      · intro d hd
        rcases List.mem_append.mp hd with h | h
        · exact hdig d h
        · simp at h
          omega
      · rcases ds with _ | ⟨d, ds⟩
        · exact absurd rfl hne
        · simpa using hhd
      · show (ds ++ [n % 10 + 48]).foldl (fun x c => x * 10 + (c - 48)) 0 = n
        rw [List.foldl_append]
        show (fun x c => x * 10 + (c - 48)) (digitsVal ds) (n % 10 + 48) = n
        simp only [hval]
        omega

theorem decimal_chars_spec (n : Nat) :
    decimal_chars n ≠ [] ∧ (∀ d ∈ decimal_chars n, 48 ≤ d ∧ d ≤ 57) ∧
    digitsVal (decimal_chars n) = n ∧
    (0 < n → (decimal_chars n).head? ≠ some 48) ∧ (decimal_chars 0 = [48]) := by
  by_cases hn : n = 0
  · subst hn
    refine ⟨by simp [decimal_chars, dec_chars_core], ?_, by simp [decimal_chars, dec_chars_core, digitsVal], by omega, rfl⟩
    intro d hd
    simp [decimal_chars, dec_chars_core] at hd
    omega
  · have hfuel : n < 10 ^ (n + 1) :=
      lt_of_lt_of_le (Nat.lt_pow_self (by norm_num) n)
        (Nat.pow_le_pow_right (by norm_num) (Nat.le_succ n))
    obtain ⟨ds, hgo, hne, hdig, hhd, hval⟩ := dec_chars_core_spec (n + 1) n [] (by omega) hfuel
    have hdc : decimal_chars n = ds := by
      rw [decimal_chars, hgo]
      simp
    rw [hdc]
    exact ⟨hne, hdig, hval, fun _ => hhd, rfl⟩

theorem decode_decimal_chars (n : Nat) (hn : n ≤ ULONG_MAX) (rest : List Nat) (hnd : headND rest) :
    decode_decimal (decimal_chars n ++ rest) = some (n, rest) := by
  obtain ⟨hne, hdig, hval, hhd, h0⟩ := decimal_chars_spec n
  have hloop := dec_loop_eq (decimal_chars n) rest 0 hdig hnd (by simp [ULONG_MAX])
  rw [Nat.zero_mul, Nat.zero_add, hval, if_pos hn] at hloop
  unfold decode_decimal
  rw [hloop]
  show (if (decimal_chars n).length = 0 then none
        else if (decimal_chars n ++ rest).head? = some 48 ∧ (decimal_chars n).length ≠ 1 then none
        else some (n, rest)) = some (n, rest)
  have hk : (decimal_chars n).length ≠ 0 := by
    simpa using fun h => hne (List.length_eq_zero.mp h)
  rw [if_neg hk]
  by_cases hz : n = 0
  · subst hz
    rw [if_neg (by rw [h0]; simp)]
  · have hhd2 := hhd (by omega)
    have hhead : (decimal_chars n ++ rest).head? = (decimal_chars n).head? := by
      rcases hd : decimal_chars n with _ | ⟨d, ds⟩
      · exact absurd hd hne
      · simp
    rw [if_neg (by rw [hhead]; exact fun h => hhd2 h.1)]
theorem decode_decimal_eq (s : List Nat) :
    decode_decimal s =
      if s.takeWhile isDig = [] ∨ (s.head? = some 48 ∧ 1 < (s.takeWhile isDig).length) ∨
         ULONG_MAX < digitsVal (s.takeWhile isDig) then none
      else some (digitsVal (s.takeWhile isDig), s.dropWhile isDig) := by
  have hsplit : s.takeWhile isDig ++ s.dropWhile isDig = s :=
    List.takeWhile_append_dropWhile isDig s
  have hdig : ∀ d ∈ s.takeWhile isDig, 48 ≤ d ∧ d ≤ 57 := by
    intro d hd
    have h := List.mem_takeWhile_imp hd
    simpa [isDig] using h
  have hnd : headND (s.dropWhile isDig) := by
    have h := List.head?_dropWhile_not isDig s
    unfold headND
    rcases hh : (s.dropWhile isDig).head? with _ | c
    · trivial
    · rw [hh] at h
      have h2 : ¬(48 ≤ c ∧ c ≤ 57) := by simpa [isDig] using h
      omega
  have hloop := dec_loop_eq (s.takeWhile isDig) (s.dropWhile isDig) 0 hdig hnd
    (by simp [ULONG_MAX])
  rw [hsplit, Nat.zero_mul, Nat.zero_add] at hloop
  unfold decode_decimal
  rw [hloop]
  by_cases hov : ULONG_MAX < digitsVal (s.takeWhile isDig)
  · rw [if_neg (by omega), if_pos (Or.inr (Or.inr hov))]
  · rw [if_pos (by omega)]
    show (if (s.takeWhile isDig).length = 0 then none
          else if s.head? = some 48 ∧ (s.takeWhile isDig).length ≠ 1 then none
          else some (digitsVal (s.takeWhile isDig), s.dropWhile isDig)) = _
    by_cases hds : (s.takeWhile isDig).length = 0
    · rw [if_pos hds, if_pos (Or.inl (List.length_eq_zero.mp hds))]
    · rw [if_neg hds]
      by_cases hz : s.head? = some 48 ∧ (s.takeWhile isDig).length ≠ 1
      · rw [if_pos hz, if_pos (Or.inr (Or.inl ⟨hz.1, by omega⟩))]
      · rw [if_neg hz, if_neg ?_]
        push_neg at hz
        rintro (h1 | h2 | h3)
        · exact hds (by simp [h1])
        · have hlen := hz h2.1
          have h22 := h2.2
          omega
        · exact hov h3
theorem SS_AG (s : List Nat) : SS s = appendGuard s := by
  funext st
  rcases st with ⟨acc, cap⟩
  unfold SS appendGuard
  by_cases h : cap ≤ s.length
  · rw [if_pos h, if_neg (by omega)]
  · rw [if_neg h, if_pos (by omega)]

theorem SX_AG (n : Nat) : SX n = appendGuard (decimal_chars n) := by
  unfold SX
  rw [SS_AG]

theorem SB_AG (buf : List Nat) : SB buf = appendGuard (to_b64_loop buf 0 0) := by
  funext st
  rcases st with ⟨acc, cap⟩
  unfold SB to_base64 appendGuard
  by_cases h : cap ≤ b64_olen buf.length
  · rw [if_pos h]
    rw [if_neg (by rw [to_b64_loop_length]; omega)]
  · rw [if_neg h]
    rw [if_pos (by rw [to_b64_loop_length]; omega)]
    rw [to_b64_loop_length]

theorem AG_bind (a b : List Nat) (st : List Nat × Nat) :
    (appendGuard a st).bind (appendGuard b) = appendGuard (a ++ b) st := by
  rcases st with ⟨acc, cap⟩
  unfold appendGuard
  by_cases h1 : a.length < cap
  · rw [if_pos h1, Option.some_bind]
    by_cases h2 : b.length < cap - a.length
    · rw [if_pos h2, if_pos (by simp only [List.length_append]; omega)]
      simp only [List.append_assoc, List.length_append, Option.some.injEq, Prod.mk.injEq, true_and]
      omega
    · rw [if_neg h2, if_neg (by simp only [List.length_append]; omega)]
  · rw [if_neg h1, Option.none_bind, if_neg (by simp only [List.length_append]; omega)]

theorem AG_bind_opt (a b : List Nat) (c : Prop) [Decidable c] (st : List Nat × Nat) :
    (appendGuard a st).bind (fun s => if c then appendGuard b s else some s) =
      appendGuard (a ++ if c then b else []) st := by
  by_cases hc : c
  · simp only [if_pos hc]
    exact AG_bind a b st
  · simp only [if_neg hc, List.append_nil]
    rcases h : appendGuard a st with _ | v <;> simp

theorem AG_bind_opt2 (a b : List Nat) (c : Prop) [Decidable c] (st : List Nat × Nat) :
    (appendGuard a st).bind (fun s => if c then some s else appendGuard b s) =
      appendGuard (a ++ if c then [] else b) st := by
  by_cases hc : c
  · simp only [if_pos hc, List.append_nil]
    rcases h : appendGuard a st with _ | v <;> simp
  · simp only [if_neg hc]
    exact AG_bind a b st

theorem encode_st_eq (pp : argon2i_params) (st : List Nat × Nat) :
    encode_st pp st = appendGuard (encode_str pp) st := by
  unfold encode_st
  simp only [SS_AG, SX_AG, SB_AG, AG_bind, AG_bind_opt, AG_bind_opt2]
  unfold encode_str
  congr 1

theorem argon2i_encode_string_eq (cap : Nat) (pp : argon2i_params) :
    argon2i_encode_string cap pp =
      if (encode_str pp).length < cap then some (encode_str pp) else none := by
  unfold argon2i_encode_string
  rw [encode_st_eq]
  unfold appendGuard
  by_cases h : (encode_str pp).length < cap
  · rw [if_pos h, if_pos h]
    simp
  · rw [if_neg h, if_neg h]
    rfl
theorem CC_self : ∀ a r : List Nat, CC a (a ++ r) = some r := by
  intro a
  induction a with
  | nil => intro r; rfl
  | cons c cs ih =>
    intro r
    show (if c = c then CC cs (cs ++ r) else none) = some r
    rw [if_pos rfl, ih]

theorem headNA_cons (c : Nat) (x : List Nat) (h : b64_char_to_byte c = 0xFF) :
    headNA (c :: x) := h

theorem headND_cons (c : Nat) (x : List Nat) (h : c < 48 ∨ 57 < c) :
    headND (c :: x) := h

theorem headNA_nil : headNA [] := trivial

theorem headND_nil : headND [] := trivial

theorem headNA_salt_out (pp : argon2i_params) : headNA (seg_salt_out pp) := by
  unfold seg_salt_out
  by_cases h : pp.salt.length = 0
  · rw [if_pos h]
    exact headNA_nil
  · rw [if_neg h]
    exact headNA_cons 36 _ (by decide)

theorem headNA_data (pp : argon2i_params) : headNA (seg_data pp) := by
  unfold seg_data
  by_cases h : 0 < pp.associated_data.length
  · rw [if_pos h]
    exact headNA_cons 44 _ (by decide)
  · rw [if_neg h]
    simp only [List.nil_append]
    exact headNA_salt_out pp

theorem headND_keyid (pp : argon2i_params) : headND (seg_keyid pp) := by
  unfold seg_keyid
  by_cases h : 0 < pp.key_id.length
  · rw [if_pos h]
    exact headND_cons 44 _ (by omega)
  · rw [if_neg h]
    simp only [List.nil_append]
    unfold seg_data
    by_cases h2 : 0 < pp.associated_data.length
    · rw [if_pos h2]
      exact headND_cons 44 _ (by omega)
    · rw [if_neg h2]
      simp only [List.nil_append]
      unfold seg_salt_out
      by_cases h3 : pp.salt.length = 0
      · rw [if_pos h3]
        exact headND_nil
      · rw [if_neg h3]
        exact headND_cons 36 _ (by omega)

theorem d_salt_out_spec (pp q : argon2i_params)
    (hqs : q.salt = []) (hqo : q.output = [])
    (hs : pp.salt.length = 0 ∨ (8 ≤ pp.salt.length ∧ pp.salt.length ≤ 48))
    (ho : pp.output.length = 0 ∨ (12 ≤ pp.output.length ∧ pp.output.length ≤ 64))
    (hmono : pp.output.length ≠ 0 → pp.salt.length ≠ 0)
    (hsb : ∀ b ∈ pp.salt, b < 256) (hob : ∀ b ∈ pp.output, b < 256) :
    d_salt_out q (seg_salt_out pp) = ({ q with salt := pp.salt, output := pp.output }, true) := by
  obtain ⟨qm, qt, qp, qk, qa, qs, qo⟩ := q
  replace hqs : qs = [] := hqs
  replace hqo : qo = [] := hqo
  subst hqs
  subst hqo
  by_cases hsalt : pp.salt.length = 0
  · have hs0 : pp.salt = [] := List.length_eq_zero.mp hsalt
    have ho0 : pp.output = [] := by
      by_cases h : pp.output.length = 0
      · exact List.length_eq_zero.mp h
      · exact absurd hsalt (hmono h)
    unfold seg_salt_out
    rw [if_pos hsalt]
    unfold d_salt_out
    rw [if_pos rfl, hs0, ho0]
  · unfold seg_salt_out
    rw [if_neg hsalt]
    by_cases hout : pp.output.length = 0
    · have ho0 : pp.output = [] := List.length_eq_zero.mp hout
      rw [if_pos hout, List.append_nil]
      unfold d_salt_out
      rw [if_neg (by simp [lit_dollar]), CC_self]
      have hfb : from_base64 48 (to_b64_loop pp.salt 0 0 ++ []) = (pp.salt, some []) :=
        from_base64_to_b64 pp.salt hsb 48 (by omega) [] headNA_nil
      rw [List.append_nil] at hfb
      simp only [hfb]
      rw [if_neg (by simp; omega)]
      simp [ho0]
    · rw [if_neg hout]
      unfold d_salt_out
      rw [List.append_assoc]
      rw [if_neg (by simp [lit_dollar]), CC_self]
      have hfb : from_base64 48
          (to_b64_loop pp.salt 0 0 ++ (lit_dollar ++ to_b64_loop pp.output 0 0)) =
          (pp.salt, some (lit_dollar ++ to_b64_loop pp.output 0 0)) :=
        from_base64_to_b64 pp.salt hsb 48 (by omega)
          (lit_dollar ++ to_b64_loop pp.output 0 0) (headNA_cons 36 _ (by decide))
      simp only [hfb]
      rw [if_neg (by simp; omega)]
      simp only [lit_dollar, List.cons_append, List.nil_append, reduceCtorEq, if_false]
      rw [show (36 : Nat) :: to_b64_loop pp.output 0 0 =
            [36] ++ to_b64_loop pp.output 0 0 from rfl, CC_self]
      have hfb2 : from_base64 64 (to_b64_loop pp.output 0 0 ++ []) = (pp.output, some []) :=
        from_base64_to_b64 pp.output hob 64 (by omega) [] headNA_nil
      rw [List.append_nil] at hfb2
      simp only [hfb2]
      rw [if_neg (by simp; omega)]
      simp
theorem d_data_spec (pp q : argon2i_params)
    (hqa : q.associated_data = []) (hqs : q.salt = []) (hqo : q.output = [])
    (had : pp.associated_data.length ≤ 32)
    (hs : pp.salt.length = 0 ∨ (8 ≤ pp.salt.length ∧ pp.salt.length ≤ 48))
    (ho : pp.output.length = 0 ∨ (12 ≤ pp.output.length ∧ pp.output.length ≤ 64))
    (hmono : pp.output.length ≠ 0 → pp.salt.length ≠ 0)
    (hab : ∀ b ∈ pp.associated_data, b < 256)
    (hsb : ∀ b ∈ pp.salt, b < 256) (hob : ∀ b ∈ pp.output, b < 256) :
    d_data q (seg_data pp) =
      ({ q with associated_data := pp.associated_data,
                salt := pp.salt, output := pp.output }, true) := by
  obtain ⟨qm, qt, qp, qk, qa, qs, qo⟩ := q
  replace hqa : qa = [] := hqa
  replace hqs : qs = [] := hqs
  replace hqo : qo = [] := hqo
  subst hqa
  subst hqs
  subst hqo
  unfold seg_data
  by_cases hd : 0 < pp.associated_data.length
  · rw [if_pos hd, List.append_assoc]
    unfold d_data
    rw [CC_self]
    have hfb : from_base64 32 (to_b64_loop pp.associated_data 0 0 ++ seg_salt_out pp) =
        (pp.associated_data, some (seg_salt_out pp)) :=
      from_base64_to_b64 _ hab 32 (by omega) _ (headNA_salt_out pp)
    simp only [hfb]
    rw [d_salt_out_spec pp _ rfl rfl hs ho hmono hsb hob]
  · rw [if_neg hd]
    simp only [List.nil_append]
    have hd0 : pp.associated_data = [] := List.length_eq_zero.mp (by omega)
    unfold d_data
    have hcc : CC lit_data (seg_salt_out pp) = none := by
      unfold seg_salt_out
      by_cases h3 : pp.salt.length = 0
      · rw [if_pos h3]
        rfl
      · rw [if_neg h3]
        rfl
    rw [hcc]
    rw [d_salt_out_spec pp _ rfl rfl hs ho hmono hsb hob, hd0]

theorem d_keyid_spec (pp q : argon2i_params)
    (hqk : q.key_id = []) (hqa : q.associated_data = []) (hqs : q.salt = [])
    (hqo : q.output = [])
    (hkk : pp.key_id.length ≤ 8) (had : pp.associated_data.length ≤ 32)
    (hs : pp.salt.length = 0 ∨ (8 ≤ pp.salt.length ∧ pp.salt.length ≤ 48))
    (ho : pp.output.length = 0 ∨ (12 ≤ pp.output.length ∧ pp.output.length ≤ 64))
    (hmono : pp.output.length ≠ 0 → pp.salt.length ≠ 0)
    (hkb : ∀ b ∈ pp.key_id, b < 256) (hab : ∀ b ∈ pp.associated_data, b < 256)
    (hsb : ∀ b ∈ pp.salt, b < 256) (hob : ∀ b ∈ pp.output, b < 256) :
    d_keyid q (seg_keyid pp) =
      ({ q with key_id := pp.key_id, associated_data := pp.associated_data,
                salt := pp.salt, output := pp.output }, true) := by
  obtain ⟨qm, qt, qp, qk, qa, qs, qo⟩ := q
  replace hqk : qk = [] := hqk
  replace hqa : qa = [] := hqa
  replace hqs : qs = [] := hqs
  replace hqo : qo = [] := hqo
  subst hqk
  subst hqa
  subst hqs
  subst hqo
  unfold seg_keyid
  by_cases hd : 0 < pp.key_id.length
  · rw [if_pos hd, List.append_assoc]
    unfold d_keyid
    rw [CC_self]
    have hfb : from_base64 8 (to_b64_loop pp.key_id 0 0 ++ seg_data pp) =
        (pp.key_id, some (seg_data pp)) :=
      from_base64_to_b64 _ hkb 8 (by omega) _ (headNA_data pp)
    simp only [hfb]
    rw [d_data_spec pp _ rfl rfl rfl had hs ho hmono hab hsb hob]
  · rw [if_neg hd]
    simp only [List.nil_append]
    have hd0 : pp.key_id = [] := List.length_eq_zero.mp (by omega)
    unfold d_keyid
    have hcc : CC lit_keyid (seg_data pp) = none := by
      unfold seg_data
      by_cases h2 : 0 < pp.associated_data.length
      · rw [if_pos h2, List.append_assoc]
        rfl
      · rw [if_neg h2]
        simp only [List.nil_append]
        unfold seg_salt_out
        by_cases h3 : pp.salt.length = 0
        · rw [if_pos h3]
          rfl
        · rw [if_neg h3]
          rfl
    rw [hcc]
    rw [d_data_spec pp _ rfl rfl rfl had hs ho hmono hab hsb hob, hd0]
theorem headND_teq (x : List Nat) : headND (lit_teq ++ x) := headND_cons 44 _ (by omega)

theorem headND_peq (x : List Nat) : headND (lit_peq ++ x) := headND_cons 44 _ (by omega)

theorem encode_str_decomp (pp : argon2i_params) :
    encode_str pp = lit_argon2i ++ (lit_meq ++ (decimal_chars pp.m ++ (lit_teq ++
      (decimal_chars pp.t ++ (lit_peq ++ (decimal_chars pp.p ++ seg_keyid pp)))))) := by
  unfold encode_str seg_keyid seg_data seg_salt_out
  simp [List.append_assoc, lit_enc_head, lit_argon2i, lit_meq]

theorem decode_encode_str (pp : argon2i_params) (hv : ValidRecord pp) (r0 : argon2i_params) :
    argon2i_decode_string r0 (encode_str pp) = (pp, true) := by
  obtain ⟨h1m, h2m, h1t, h2t, h1p, h2p, hmp, hk, ha, hs, ho, hmono, hkb, hab, hsb, hob⟩ := hv
  rw [encode_str_decomp]
  unfold argon2i_decode_string
  dsimp only
  rw [CC_self]
  dsimp only
  rw [CC_self]
  dsimp only
  rw [decode_decimal_chars pp.m (by simp only [ULONG_MAX]; omega) _ (headND_teq _)]
  dsimp only
  rw [CC_self]
  dsimp only
  rw [decode_decimal_chars pp.t (by simp only [ULONG_MAX]; omega) _ (headND_peq _)]
  dsimp only
  rw [CC_self]
  dsimp only
  rw [decode_decimal_chars pp.p (by simp only [ULONG_MAX]; omega) _ (headND_keyid pp)]
  dsimp only
  unfold d_checks
  rw [if_neg (show ¬(pp.m < 1 ∨ 3 < pp.m >>> 30) by
    rw [Nat.shiftRight_eq_div_pow]
    omega)]
  rw [if_neg (show ¬(pp.t < 1 ∨ 3 < pp.t >>> 30) by
    rw [Nat.shiftRight_eq_div_pow]
    omega)]
  rw [if_neg (show ¬(pp.p < 1 ∨ 255 < pp.p) by omega)]
  rw [if_neg (show ¬(pp.m < (pp.p <<< 3) % ULONG_MOD) by
    rw [Nat.shiftLeft_eq]
    simp only [ULONG_MOD]
    omega)]
  rw [d_keyid_spec pp _ rfl rfl rfl rfl hk ha hs ho hmono hkb hab hsb hob]
theorem d_salt_out_mtp (pp : argon2i_params) (s : List Nat) :
    (d_salt_out pp s).1.m = pp.m ∧ (d_salt_out pp s).1.t = pp.t ∧
    (d_salt_out pp s).1.p = pp.p := by
  unfold d_salt_out
  repeat' first
    | simp
    | split

theorem d_data_mtp (pp : argon2i_params) (s : List Nat) :
    (d_data pp s).1.m = pp.m ∧ (d_data pp s).1.t = pp.t ∧ (d_data pp s).1.p = pp.p := by
  unfold d_data
  repeat' split
  all_goals first
    | simp
    | exact d_salt_out_mtp _ _

theorem d_keyid_mtp (pp : argon2i_params) (s : List Nat) :
    (d_keyid pp s).1.m = pp.m ∧ (d_keyid pp s).1.t = pp.t ∧ (d_keyid pp s).1.p = pp.p := by
  unfold d_keyid
  repeat' split
  all_goals first
    | simp
    | exact d_data_mtp _ _
theorem d_checks_ranges (pp : argon2i_params) (s : List Nat) (r : argon2i_params)
    (h : d_checks pp s = (r, true)) :
    1 ≤ r.m ∧ r.m ≤ 2 ^ 32 - 1 ∧ 1 ≤ r.t ∧ r.t ≤ 2 ^ 32 - 1 ∧
    1 ≤ r.p ∧ r.p ≤ 255 ∧ 8 * r.p ≤ r.m := by
  unfold d_checks at h
  split at h
  · exact absurd (congrArg Prod.snd h) (by simp)

  split at h
  · exact absurd (congrArg Prod.snd h) (by simp)

  split at h
  · exact absurd (congrArg Prod.snd h) (by simp)

  split at h
  · exact absurd (congrArg Prod.snd h) (by simp)

  rename_i hm ht hp hmp
  obtain ⟨e1, e2, e3⟩ := d_keyid_mtp pp s
  rw [h] at e1 e2 e3
  dsimp only at e1 e2 e3
  rw [e1, e2, e3]
  rw [Nat.shiftRight_eq_div_pow] at hm ht
  rw [Nat.shiftLeft_eq] at hmp
  simp only [ULONG_MOD] at hmp
  push_neg at hm ht hp hmp
  refine ⟨hm.1, by omega, ht.1, by omega, hp.1, hp.2, ?_⟩
  have h8 : pp.p * 2 ^ 3 % 2 ^ 64 = 8 * pp.p := by
    have : pp.p * 2 ^ 3 < 2 ^ 64 := by omega
    rw [Nat.mod_eq_of_lt this]
    ring
  rw [h8] at hmp
  omega

theorem decode_success_ranges (r0 : argon2i_params) (s : List Nat) (r : argon2i_params)
    (h : argon2i_decode_string r0 s = (r, true)) :
    1 ≤ r.m ∧ r.m ≤ 2 ^ 32 - 1 ∧ 1 ≤ r.t ∧ r.t ≤ 2 ^ 32 - 1 ∧
    1 ≤ r.p ∧ r.p ≤ 255 ∧ 8 * r.p ≤ r.m := by
  unfold argon2i_decode_string at h
  dsimp only at h
  repeat' split at h
  all_goals try (exfalso; exact Bool.noConfusion (congrArg Prod.snd h))
  exact d_checks_ranges _ _ _ h
theorem decode_state_independent (r0 r1 : argon2i_params) (s : List Nat) :
    (argon2i_decode_string r0 s).2 = (argon2i_decode_string r1 s).2 ∧
    ((argon2i_decode_string r0 s).2 = true →
      (argon2i_decode_string r0 s).1 = (argon2i_decode_string r1 s).1) := by
  unfold argon2i_decode_string
  dsimp only
  repeat' split
  all_goals simp

theorem from_base64_full (src : List Nat) :
    from_base64 src.length src =
      (b64_emit src 0 0,
       if 4 < (b64_fin src 0 0).2 ∨
          (b64_fin src 0 0).1 &&& ((1 <<< (b64_fin src 0 0).2) - 1) ≠ 0 then none
       else some (b64_rest src)) :=
  from_base64_eq src src.length (b64_emit_length_le src 0 0)

theorem from_base64_capacity (src : List Nat) (cap : Nat) :
    (from_base64 cap src).1.length ≤ cap ∧
    (from_base64 cap src).1 = (from_base64 src.length src).1.take cap ∧
    (cap < (from_base64 src.length src).1.length → (from_base64 cap src).2 = none) := by
  rw [from_base64_full]
  dsimp only
  by_cases h : (b64_emit src 0 0).length ≤ cap
  · rw [from_base64_eq src cap h]
    exact ⟨h, (List.take_of_length_le h).symm, by intro hlt; omega⟩
  · rw [from_base64_short src cap (by omega)]
    refine ⟨?_, rfl, fun _ => rfl⟩
    rw [List.length_take]
    omega
/-- C1: for every record that satisfies all Data Model invariants,
encoding with argon2i_encode_string into a sufficiently large buffer
succeeds, and decoding the produced string with argon2i_decode_string
succeeds and yields a record equal to the original, for any initial
contents of the destination record; the statement quantifies over all
valid records and therefore covers the parameters-only, parameters plus
salt, and parameters plus salt plus output shapes. -/
theorem claim_C1_roundtrip (pp r0 : argon2i_params) (hv : ValidRecord pp) :
    ∃ s, argon2i_encode_string (s.length + 1) pp = some s ∧
         argon2i_decode_string r0 s = (pp, true) := by
  refine ⟨encode_str pp, ?_, decode_encode_str pp hv r0⟩
  rw [argon2i_encode_string_eq, if_pos (by omega)]

/-- Witness for C1 at a concrete valid record with all fields present. -/
theorem claim_C1_witness :
    ∃ s, argon2i_encode_string (s.length + 1)
        ⟨120, 5000, 2, [30, 31], [1, 2, 3], [1, 2, 3, 4, 5, 6, 7, 8],
         [9, 9, 9, 9, 9, 9, 9, 9, 9, 9, 9, 9]⟩ = some s ∧
      argon2i_decode_string pp_init s =
        (⟨120, 5000, 2, [30, 31], [1, 2, 3], [1, 2, 3, 4, 5, 6, 7, 8],
          [9, 9, 9, 9, 9, 9, 9, 9, 9, 9, 9, 9]⟩, true) :=
  claim_C1_roundtrip _ pp_init (by unfold ValidRecord; decide)

/-- C2: decode_decimal fails exactly when no digit is consumed, or the
digit run starts with a zero and is longer than one digit, or the run
value exceeds ULONG_MAX; on success it returns the run value and the
first non-digit position.  In particular "0120" and "" are rejected and
"0" parses as zero with nothing left. -/
theorem claim_C2_decimal_strict :
    (∀ s : List Nat, decode_decimal s =
      if s.takeWhile isDig = [] ∨ (s.head? = some 48 ∧ 1 < (s.takeWhile isDig).length) ∨
         ULONG_MAX < digitsVal (s.takeWhile isDig) then none
      else some (digitsVal (s.takeWhile isDig), s.dropWhile isDig)) ∧
    decode_decimal [48, 49, 50, 48] = none ∧
    decode_decimal [] = none ∧
    decode_decimal [48] = some (0, []) :=
  ⟨decode_decimal_eq, by decide, by decide, by decide⟩

/-- C3: any successfully decoded record satisfies the declared numeric
ranges (so inputs violating them are rejected), and the specific
strings with m = 15 (m < 8 p), p = 0, p = 256, t = 4294967296 and t = 0
all fail to decode. -/
theorem claim_C3_range_rejection :
    (∀ r0 s r, argon2i_decode_string r0 s = (r, true) →
      1 ≤ r.m ∧ r.m ≤ 2 ^ 32 - 1 ∧ 1 ≤ r.t ∧ r.t ≤ 2 ^ 32 - 1 ∧
      1 ≤ r.p ∧ r.p ≤ 255 ∧ 8 * r.p ≤ r.m) ∧
    (argon2i_decode_string pp_init kat_bad_m15).2 = false ∧
    (argon2i_decode_string pp_init kat_bad_p0).2 = false ∧
    (argon2i_decode_string pp_init kat_bad_p256).2 = false ∧
    (argon2i_decode_string pp_init kat_bad_t32).2 = false ∧
    (argon2i_decode_string pp_init kat_bad_t0).2 = false :=
  ⟨decode_success_ranges, by decide, by decide, by decide, by decide, by decide⟩

/-- Witness for C3 at a concrete successful decode. -/
theorem claim_C3_witness :
    1 ≤ (argon2i_params.mk 120 5000 2 [] [] [] []).m ∧
    (argon2i_params.mk 120 5000 2 [] [] [] []).m ≤ 2 ^ 32 - 1 ∧
    1 ≤ (argon2i_params.mk 120 5000 2 [] [] [] []).t ∧
    (argon2i_params.mk 120 5000 2 [] [] [] []).t ≤ 2 ^ 32 - 1 ∧
    1 ≤ (argon2i_params.mk 120 5000 2 [] [] [] []).p ∧
    (argon2i_params.mk 120 5000 2 [] [] [] []).p ≤ 255 ∧
    8 * (argon2i_params.mk 120 5000 2 [] [] [] []).p ≤
      (argon2i_params.mk 120 5000 2 [] [] [] []).m :=
  claim_C3_range_rejection.1 pp_init kat_params_only
    (argon2i_params.mk 120 5000 2 [] [] [] []) (by decide)

/-- C4: with enough output capacity, from_base64 fails exactly when more
than 4 accumulated bits remain after the loop or some leftover bit is
nonzero, and the more-than-4-bits case happens exactly when the length
of the consumed Base64 run is 1 modulo 4; the nine-character keyid
string is rejected by the decoder. -/
theorem claim_C4_leftover :
    (∀ (src : List Nat) (cap : Nat), src.length ≤ cap →
      (((from_base64 cap src).2 = none ↔
        4 < (b64_fin src 0 0).2 ∨
        (b64_fin src 0 0).1 &&& ((1 <<< (b64_fin src 0 0).2) - 1) ≠ 0) ∧
       (4 < (b64_fin src 0 0).2 ↔ (b64_run src).length % 4 = 1))) ∧
    (argon2i_decode_string pp_init kat_bad_keyid9).2 = false := by
  constructor
  · intro src cap hcap
    have hfb := from_base64_eq src cap (le_trans (b64_emit_length_le src 0 0) hcap)
    constructor
    · rw [hfb]
      dsimp only
      by_cases hC : 4 < (b64_fin src 0 0).2 ∨
          (b64_fin src 0 0).1 &&& ((1 <<< (b64_fin src 0 0).2) - 1) ≠ 0
      · rw [if_pos hC]
        simpa using hC
      · rw [if_neg hC]
        simp [hC]
    · have hal := b64_fin_al src 0 0 (by omega)
      rw [hal]
      omega
  · decide

/-- Witness for C4 at a single Base64 character, a run of length 1. -/
theorem claim_C4_witness :
    ((from_base64 1 [65]).2 = none ↔
      4 < (b64_fin [65] 0 0).2 ∨
      (b64_fin [65] 0 0).1 &&& ((1 <<< (b64_fin [65] 0 0).2) - 1) ≠ 0) ∧
    (4 < (b64_fin [65] 0 0).2 ↔ (b64_run [65]).length % 4 = 1) :=
  claim_C4_leftover.1 [65] 1 (by decide)

/-- C5: encoding any byte sequence of length at most 64 with to_base64
into a large enough buffer succeeds, and decoding the result with
from_base64 with capacity at least the original length returns exactly
the original bytes with the whole text consumed. -/
theorem claim_C5_b64_roundtrip (bs : List Nat) (hb : ∀ b ∈ bs, b < 256)
    (hlen : bs.length ≤ 64) (cap_e cap_d : Nat)
    (he : b64_olen bs.length < cap_e) (hd : bs.length ≤ cap_d) :
    ∃ cs, to_base64 cap_e bs = some cs ∧ from_base64 cap_d cs = (bs, some []) := by
  refine ⟨to_b64_loop bs 0 0, ?_, ?_⟩
  · unfold to_base64
    rw [if_neg (by omega)]
  · have h := from_base64_to_b64 bs hb cap_d hd [] headNA_nil
    rwa [List.append_nil] at h

/-- Witness for C5 at the byte sequence [1, 2, 3]. -/
theorem claim_C5_witness :
    ∃ cs, to_base64 5 [1, 2, 3] = some cs ∧ from_base64 3 cs = ([1, 2, 3], some []) :=
  claim_C5_b64_roundtrip [1, 2, 3] (by decide) (by decide) 5 3 (by decide) (by decide)

/-- C6: for every record satisfying the Data Model invariants, encoding
into a destination of exactly the produced length plus one succeeds and
encoding into a destination of exactly the produced length fails. -/
theorem claim_C6_boundary (pp : argon2i_params) (hv : ValidRecord pp) :
    ∃ s, argon2i_encode_string (s.length + 1) pp = some s ∧
         argon2i_encode_string s.length pp = none := by
  refine ⟨encode_str pp, ?_, ?_⟩ <;> rw [argon2i_encode_string_eq]
  · rw [if_pos (by omega)]
  · rw [if_neg (by omega)]

/-- Witness for C6 at a concrete valid record. -/
theorem claim_C6_witness :
    ∃ s, argon2i_encode_string (s.length + 1) ⟨120, 5000, 2, [], [], [], []⟩ = some s ∧
         argon2i_encode_string s.length ⟨120, 5000, 2, [], [], [], []⟩ = none :=
  claim_C6_boundary _ (by unfold ValidRecord; decide)

/-- C7 counterexample: decoding the string with codes of
"dollar argon2i dollar m=120" into a record with nonempty fields fails,
yet the caller-visible record is not the one passed in: the four
optional lengths were zeroed and m was overwritten with the parsed
value, so the state is not "as if no fields had been written". -/
theorem claim_C7_counterexample :
    (argon2i_decode_string ⟨7, 7, 7, [1], [2], [3, 3, 3, 3, 3, 3, 3, 3], [4]⟩
        [36, 97, 114, 103, 111, 110, 50, 105, 36, 109, 61, 49, 50, 48]).2 = false ∧
    (argon2i_decode_string ⟨7, 7, 7, [1], [2], [3, 3, 3, 3, 3, 3, 3, 3], [4]⟩
        [36, 97, 114, 103, 111, 110, 50, 105, 36, 109, 61, 49, 50, 48]).1 ≠
      ⟨7, 7, 7, [1], [2], [3, 3, 3, 3, 3, 3, 3, 3], [4]⟩ := by decide

/-- C7 amended: a failed decode does mutate the caller-supplied record
(the optional lengths are zeroed and fields parsed before the failure
keep their parsed values), but the outcome is opaque in the sense that
the success flag, and on success the decoded record, are functions of
the input string alone and never depend on the prior contents of the
destination record. -/
theorem claim_C7_opaque_outcome (r0 r1 : argon2i_params) (s : List Nat) :
    (argon2i_decode_string r0 s).2 = (argon2i_decode_string r1 s).2 ∧
    ((argon2i_decode_string r0 s).2 = true →
      (argon2i_decode_string r0 s).1 = (argon2i_decode_string r1 s).1) :=
  decode_state_independent r0 r1 s

/-- Witness for C7 on a concrete successful decode from two different
initial records. -/
theorem claim_C7_witness :
    (argon2i_decode_string ⟨1, 1, 1, [], [], [], []⟩ kat_params_only).2 =
      (argon2i_decode_string ⟨2, 2, 2, [5], [], [], []⟩ kat_params_only).2 ∧
    ((argon2i_decode_string ⟨1, 1, 1, [], [], [], []⟩ kat_params_only).2 = true →
      (argon2i_decode_string ⟨1, 1, 1, [], [], [], []⟩ kat_params_only).1 =
        (argon2i_decode_string ⟨2, 2, 2, [5], [], [], []⟩ kat_params_only).1) :=
  claim_C7_opaque_outcome _ _ _

/-- C8: for every character code below 256, b64_char_to_byte returns the
6-bit value of the Base64 alphabet (A..Z to 0..25, a..z to 26..51,
0..9 to 52..61, plus to 62, slash to 63) and the sentinel 255 for every
other character; the character A is the only one mapped to 0. -/
theorem claim_C8_char_map : ∀ c : Nat, c < 256 →
    (b64_char_to_byte c =
      (if 65 ≤ c ∧ c ≤ 90 then c - 65 else if 97 ≤ c ∧ c ≤ 122 then c - 71
       else if 48 ≤ c ∧ c ≤ 57 then c + 4 else if c = 43 then 62
       else if c = 47 then 63 else 255)) ∧
    (b64_char_to_byte c = 0 ↔ c = 65) := by decide

/-- Witness for C8 at the plus character. -/
theorem claim_C8_witness :
    (b64_char_to_byte 43 =
      (if 65 ≤ 43 ∧ 43 ≤ 90 then 43 - 65 else if 97 ≤ 43 ∧ 43 ≤ 122 then 43 - 71
       else if 48 ≤ 43 ∧ 43 ≤ 57 then 43 + 4 else if 43 = 43 then 62
       else if 43 = 47 then 63 else 255)) ∧
    (b64_char_to_byte 43 = 0 ↔ 43 = 65) :=
  claim_C8_char_map 43 (by decide)

/-- C9: the input ending in ",keyid=" with zero Base64 characters
decodes successfully to a record with empty key_id, the same record the
parameters-only string decodes to, and re-encoding that record yields
the parameters-only string, which differs from the original input. -/
theorem claim_C9_empty_optional :
    ∃ r : argon2i_params,
      argon2i_decode_string pp_init kat_keyid_empty = (r, true) ∧ r.key_id = [] ∧
      argon2i_decode_string pp_init kat_params_only = (r, true) ∧
      argon2i_encode_string 100 r = some kat_params_only ∧
      kat_params_only ≠ kat_keyid_empty :=
  ⟨⟨120, 5000, 2, [], [], [], []⟩, by decide, by decide, by decide, by decide, by decide⟩

/-- C10: from_base64 never writes more bytes than the declared capacity:
the bytes written are always the first cap bytes of the unlimited
decode, and when the unlimited decode yields more bytes than cap the
call fails; in the C code *dst_len is written back only on success,
which the model renders by returning none with no length on failure. -/
theorem claim_C10_capacity (src : List Nat) (cap : Nat) :
    (from_base64 cap src).1.length ≤ cap ∧
    (from_base64 cap src).1 = (from_base64 src.length src).1.take cap ∧
    (cap < (from_base64 src.length src).1.length → (from_base64 cap src).2 = none) :=
  from_base64_capacity src cap

/-- Witness for C10 on eight A characters decoded with capacity 2. -/
theorem claim_C10_witness :
    (from_base64 2 [65, 65, 65, 65, 65, 65, 65, 65]).1.length ≤ 2 ∧
    (from_base64 2 [65, 65, 65, 65, 65, 65, 65, 65]).2 = none :=
  ⟨(claim_C10_capacity [65, 65, 65, 65, 65, 65, 65, 65] 2).1,
   (claim_C10_capacity [65, 65, 65, 65, 65, 65, 65, 65] 2).2.2 (by decide)⟩
